import Mathlib

/-!
Verification of the `sl-server` wire protocol and session logic.

This file gives a shallow embedding of the repository's source:

* `src/signal.js` — the frame codec (`encode`, `decode`, `split`, the
  per-connection reassembly buffer `zone`);
* `src/unnamed/part_000` (the worker) — the message dispatcher `handle`, the
  check/sync barrier installed by `fileCheckCallBack`, the `fileSync` /
  `fileCover` manifest special-case, `fileCheck`, and `build` streaming;
* `src/utils.js` — `dirCheck` (directory-ensuring before a file write).

Buffers are modelled as `List Nat` (one `Nat` per byte), JS strings of hex
digits as `List Nat` (one `Nat` per digit), fallible operations as
`Option`/`Except`.  Functions that in JS recurse on a shrinking buffer are
written with an explicit fuel argument so that all definitions reduce by
`decide`; the fuel supplied at the top level is always sufficient
(`cut` consumes at least 3 bytes per step, `toHexCore` divides by 16).
-/

namespace SL

/-! ## Frame codec — `src/signal.js` -/

/-- Models `const START = Buffer.from([0x12, 0x23, 0x33])` (signal.js line 8). -/
def START : List Nat := [0x12, 0x23, 0x33]

/-- Models `const END = Buffer.from([0xAB, 0xCD, 0xEF])` (signal.js line 9). -/
def END : List Nat := [0xAB, 0xCD, 0xEF]

/-- Models `const BOUNDARY = Buffer.from([0x10, 0x03])` (signal.js line 10). -/
def BOUNDARY : List Nat := [0x10, 0x03]

/-- Models `const JOINT = Buffer.concat([END, START])` (signal.js line 11). -/
def JOINT : List Nat := END ++ START

/-- Models `const MAX = 5` (signal.js line 12). -/
def MAX : Nat := 5

/-- Models `const MAX_INFO_SIZE = MAX * 1024 * 1024` (signal.js line 13). -/
def MAX_INFO_SIZE : Nat := MAX * 1024 * 1024

/-- Fuel-driven core of JS `Number.prototype.toString(16)`: most significant
hex digit first, no leading zeros, `0 ↦ [0]`.  The fuel only bounds the
recursion depth; `toHex` supplies `n + 1`, which always suffices since the
argument strictly decreases under division by 16. -/
def toHexCore : Nat → Nat → List Nat
  | 0, _ => []
  | fuel + 1, n => if n < 16 then [n] else toHexCore fuel (n / 16) ++ [n % 16]

/-- JS `n.toString(16)`, as the list of hex digits (msd first). -/
def toHex (n : Nat) : List Nat := toHexCore (n + 1) n

/-- JS `parseInt(s, 16)` on a list of hex digits. -/
def fromHex (ds : List Nat) : Nat := ds.foldl (fun acc d => acc * 16 + d) 0

/-- Models `zeroFillBuffers` (signal.js lines 152-157): left-pad a digit string with
zeros up to the given total length. -/
def zeroFillBuffers (content : List Nat) (length : Nat) : List Nat :=
  List.replicate (length - content.length) 0 ++ content

/-- The three length bytes written by `encode` (signal.js lines 67, 75-77):
`length_x16 = zeroFillBuffers(length.toString(16), 6)`, then
`length_buf[i] = parseInt(length_x16.slice(2i, 2i+2), 16)` (the last slice is
open-ended). -/
def lengthBytes (length : Nat) : Nat × Nat × Nat :=
  let lx := zeroFillBuffers (toHex length) 6
  (fromHex (lx.take 2), fromHex ((lx.drop 2).take 2), fromHex (lx.drop 4))

/-- Models `encode` (signal.js lines 58-80).  `signal` is the one type byte; missing
`content`/`note` default to empty buffers (lines 62-63).  The total length
counts `START`, 3 length bytes, 1 signal byte, note, `BOUNDARY`, content and
`END` (line 66).  Oversize frames log an error and produce no bytes
(lines 70-73), modelled as `none`. -/
def encode (signal : Nat) (content note : List Nat) : Option (List Nat) :=
  let length := START.length + 3 + 1 + note.length + BOUNDARY.length +
    content.length + END.length
  if MAX_INFO_SIZE < length then none
  else
    let b := lengthBytes length
    some (START ++ [b.1, b.2.1, b.2.2] ++ [signal] ++ note ++ BOUNDARY ++
      content ++ END)

/-- A decoded record `{ type, content, note }` (signal.js line 144). -/
structure Frame where
  type : Nat
  content : List Nat
  note : List Nat
deriving DecidableEq, Repr

/-- The length value reconstructed by `decode` (signal.js line 128):
`parseInt(cache.slice(3, 6).reduce((r, n) => r.toString(16) + n.toString(16)), 16)`.
The reduce over the three bytes concatenates each byte's hex text *without*
re-padding to two digits, then reparses the whole string as hex. -/
def readLen (b0 b1 b2 : Nat) : Nat := fromHex (toHex b0 ++ toHex b1 ++ toHex b2)

/-- Models `Buffer.prototype.indexOf` for a byte pattern: index of the first
occurrence of `pat` as a contiguous sublist of `l`, `none` when absent
(JS returns `-1`). -/
def indexOfSub : List Nat → List Nat → Option Nat
  | [], pat => if pat.isPrefixOf ([] : List Nat) then some 0 else none
  | a :: t, pat =>
    if pat.isPrefixOf (a :: t) then some 0
    else (indexOfSub t pat).map (· + 1)

/-- The inner `decode` (signal.js lines 116-145), acting on one chunk and the
connection's reassembly buffer `zone.cache`.  Returns the emitted frame (if
any) together with the new value of `zone.cache`:

* line 118 appends the chunk to the cache;
* lines 121-124: unless the cache starts with `START` and ends with `END`,
  return incomplete (the appended cache is retained);
* line 127 reads the type byte `cache[6]`, line 128 the length (`readLen`);
* lines 131-134: a declared length above `MAX_INFO_SIZE` returns incomplete
  (the cache is retained as-is);
* lines 136-144: strip the markers (`cache.slice(7, cache.length - 3)`),
  split note/content at the first `BOUNDARY` (with JS `indexOf = -1` giving
  `slice(0, -1)` / `slice(1)`), reset the cache to empty and emit the frame. -/
def decodeChunk (data zone : List Nat) : Option Frame × List Nat :=
  let cache := zone ++ data
  if ¬(cache.take 3 = START ∧ cache.drop (cache.length - 3) = END) then
    (none, cache)
  else
    let type := cache.getD 6 0
    let length := readLen (cache.getD 3 0) (cache.getD 4 0) (cache.getD 5 0)
    if MAX_INFO_SIZE < length then (none, cache)
    else
      let body := (cache.drop 7).take (cache.length - 3 - 7)
      match indexOfSub body BOUNDARY with
      | some i => (some ⟨type, body.drop (i + 2), body.take i⟩, [])
      | none =>
        (some ⟨type, body.drop 1, body.take (body.length - 1)⟩, [])

/-- Models `cut` (signal.js lines 97-107): repeatedly slice the data at the first
`JOINT` (an `END` immediately followed by a `START`), keeping the `END` on
the left piece.  Each step consumes at least `i + 3 ≥ 3` bytes, so fuel
`data.length` (supplied by `split`) is always sufficient; the fuel-exhausted
branch coincides with the `indexOf === -1` branch on the only reachable
input (`[]`). -/
def cut : Nat → List Nat → List (List Nat)
  | 0, data => [data]
  | fuel + 1, data =>
    match indexOfSub data JOINT with
    | none => [data]
    | some i => data.take (i + END.length) :: cut fuel (data.drop (i + END.length))

/-- Models `split` (signal.js lines 86-108). -/
def split (data : List Nat) : List (List Nat) := cut data.length data

/-- One step of the exported `decode`'s `map`-then-`filter` over the split
pieces (signal.js lines 47-49), threading the persistent `zone`: feed one
piece to the inner decode, keep the frame when complete. -/
def decodeStep (acc : List Frame × List Nat) (chunk : List Nat) :
    List Frame × List Nat :=
  match decodeChunk chunk acc.2 with
  | (some fr, z) => (acc.1 ++ [fr], z)
  | (none, z) => (acc.1, z)

/-- The exported `decode` (signal.js lines 46-50): split the incoming chunk,
feed each piece through the inner decode against the same persistent `zone`,
and keep the complete frames in order.  Returns the frames together with the
final reassembly buffer. -/
def decode (data zone : List Nat) : List Frame × List Nat :=
  (split data).foldl decodeStep ([], zone)

/-- One `decode` call of a chunk against the accumulated result/buffer. -/
def streamStep (acc : List Frame × List Nat) (c : List Nat) :
    List Frame × List Nat :=
  (acc.1 ++ (decode c acc.2).1, (decode c acc.2).2)

/-- Several successive `decode` calls against the same persistent
reassembly buffer, as performed by the worker's `data` listener
(`src/unnamed/part_000` line 18) as chunks arrive. -/
def decodeStream (chunks : List (List Nat)) (zone : List Nat) :
    List Frame × List Nat :=
  chunks.foldl streamStep ([], zone)

/-! ## Protocol type codes — `src/signal.js` lines 16-33.
Server signals are 1-byte buffers; we model each by its byte value. -/

def CLIENT_INIT : Nat := 0x00
def CLIENT_FILE_CHANGE : Nat := 0x01
def CLIENT_FILE_DELETE : Nat := 0x02
def CLIENT_FILE_CHECK : Nat := 0x03
def CLIENT_FILE_SYNC : Nat := 0x04
def CLIENT_NUMBER_OF_CHECK_FILES : Nat := 0x05
def CLIENT_DEVELOPMENT : Nat := 0x06
def CLIENT_BUILD : Nat := 0x07
def CLIENT_SYNC_FILES_MD5 : Nat := 0x08
def SERVER_INIT_DONE : Nat := 0xFF
def SERVER_FILE_UPDATE : Nat := 0xFE
def SERVER_CHECK_OFF : Nat := 0xFD
def SERVER_DEV_SERVER_START : Nat := 0xFC
def SERVER_BUILD_FILE_SYNC : Nat := 0xFB
def SERVER_CONSOLE : Nat := 0xBB
def SERVER_FIN : Nat := 0x80

/-! ## Connection session — `src/unnamed/part_000`

A `Session` holds the per-socket fields the worker attaches to the socket
object in `init` (lines 46-71).  Before `init` every field is `undefined`,
modelled as `none` (`cache` starts as the socket's absent reassembly buffer,
but `signal.decode` tolerates that, so it is plain `[]` here).  `sync` is
the length of the `socket.sync` task array (`none` = the array itself is
undefined); `checked` is the barrier countdown closed over by
`fileCheckCallBack` (`none` = `socket.checked` is `undefined`). -/

structure Session where
  uid : Option (List Char) := none
  project : Option (List Char) := none
  builder : Option (List Char) := none
  cache : List Nat := []
  sync : Option Nat := none
  checked : Option Int := none
  distIgnore : Option (List (List Nat)) := none
deriving DecidableEq, Repr

/-- A socket on which no `init` message has been handled yet: every
session field is still `undefined`. -/
def uninitSession : Session := {}

/-- The payload of an `init` message, `JSON.parse`d (part_000 line 29, 47). -/
structure InitInfo where
  uid : List Char
  project : List Char
  builder : List Char
deriving DecidableEq, Repr

/-- The byte content of the string `'package.json'`, against which
`fileCover`/`fileSync` compare the target path (part_000 lines 81, 153). -/
def packageJsonBytes : List Nat := "package.json".toList.map Char.toNat

/-- Models `relativeToAbsolute` (utils.js lines 89-96): `path.posix.resolve`
throws a `TypeError` when `socket.uid` or `socket.project` is still
`undefined`; the produced path string itself is irrelevant to the claims,
so only the throw/no-throw outcome is modelled. -/
def relativeToAbsolute (s : Session) : Except Unit Unit :=
  match s.uid, s.project with
  | some _, some _ => .ok ()
  | _, _ => .error ()

/-- The synchronous part of `fileSync` (part_000 lines 152-167):
`socket.sync.push` throws when the array is `undefined` (before `init`);
the executor runs `fileCover` whose I/O is asynchronous (a throw inside
the `Promise` executor only rejects the promise), and for a non-manifest
path the synchronous `socket.checked()` on line 166 is still reached: it
throws when `socket.checked` is `undefined`, else decrements the
barrier. -/
def fileSync (s : Session) (note : List Nat) : Except Unit Session :=
  match s.sync with
  | none => .error ()
  | some k =>
    let s1 := {s with sync := some (k + 1)}
    if note = packageJsonBytes then .ok s1
    else
      match s.checked with
      | none => .error ()
      | some t => .ok {s1 with checked := some (t - 1)}

/-- Models `fileCheckCallBack` (part_000 lines 174-184): installs the countdown
closure on `socket.checked` with the announced total. -/
def fileCheckCallBack (s : Session) (total : Int) : Session :=
  {s with checked := some total}

/-- The message dispatcher `handle` (part_000 lines 27-39) together with the
*synchronous* part of each handler: immediate session-field updates, the
server frames written synchronously (listed by type byte), and the
synchronous `TypeError`s Node raises when a handler dereferences a session
field that is still `undefined` (modelled as `Except.error ()`):

* `init` (lines 46-71): store identity, reset cache/sync/checked, write
  `SERVER_INIT_DONE` and a console frame; `JSON.parse` failure throws
  (`parseInit = none`);
* `fileCover`/`fileDelete`/`fileCheck` (lines 80, 120, 133) all evaluate
  `relativeToAbsolute(socket, …)` first; their file I/O itself is
  asynchronous (see `fileCheckCb`);
* `fileSync` is modelled by `SL.fileSync` above;
* `fileCheckCallBack` installs the countdown (`+content.toString()`
  modelled by the `parseNum` collaborator);
* `development` (line 191): `require(socket.builder)` throws on
  `undefined`, then `relativeToAbsolute(socket)` is evaluated;
* the `CLIENT_SYNC_FILES_MD5` case (line 36) assigns
  `socket.distIgnore = JSON.parse(content)` with no session precondition;
* `build` (line 202) evaluates `relativeToAbsolute(socket)` then
  `require(socket.builder)`;
* a type byte matching no case falls through the `switch` with no effect. -/
def handle (parseInit : List Nat → Option InitInfo)
    (parseObj : List Nat → Option (List (List Nat)))
    (parseNum : List Nat → Int)
    (s : Session) (type : Nat) (content note : List Nat) :
    Except Unit (Session × List Nat) :=
  if type = CLIENT_INIT then
    match parseInit content with
    | none => .error ()
    | some i =>
      .ok ({s with uid := some i.uid, project := some i.project,
                   builder := some i.builder, cache := [], sync := some 0,
                   checked := none}, [SERVER_INIT_DONE, SERVER_CONSOLE])
  else if type = CLIENT_FILE_CHANGE then
    match relativeToAbsolute s with
    | .error e => .error e
    | .ok _ => .ok (s, [])
  else if type = CLIENT_FILE_DELETE then
    match relativeToAbsolute s with
    | .error e => .error e
    | .ok _ => .ok (s, [])
  else if type = CLIENT_FILE_CHECK then
    match relativeToAbsolute s with
    | .error e => .error e
    | .ok _ => .ok (s, [])
  else if type = CLIENT_FILE_SYNC then
    match fileSync s note with
    | .error e => .error e
    | .ok s2 => .ok (s2, [])
  else if type = CLIENT_NUMBER_OF_CHECK_FILES then
    .ok (fileCheckCallBack s (parseNum content), [])
  else if type = CLIENT_DEVELOPMENT then
    match s.builder with
    | none => .error ()
    | some _ =>
      match relativeToAbsolute s with
      | .error e => .error e
      | .ok _ => .ok (s, [])
  else if type = CLIENT_SYNC_FILES_MD5 then
    match parseObj content with
    | none => .error ()
    | some o => .ok ({s with distIgnore := some o}, [])
  else if type = CLIENT_BUILD then
    match relativeToAbsolute s with
    | .error e => .error e
    | .ok _ =>
      match s.builder with
      | some _ => .ok (s, [])
      | none => .error ()
  else .ok (s, [])

/-- The `fs.readFile` callback of `fileCheck` (part_000 lines 133-143),
with `md5` (utils.js lines 13-17, a thin wrapper over the crypto
collaborator) abstracted as a parameter and `file` the read result
(`none` = read error).  On error or hash mismatch it writes
`SERVER_FILE_UPDATE`; on a match it calls `socket.checked()`, which throws
when no `CLIENT_NUMBER_OF_CHECK_FILES` message has installed the barrier
(`checked = none`), else decrements it. -/
def fileCheckCb (md5 : List Nat → List Nat) (s : Session)
    (file : Option (List Nat)) (info : List Nat) :
    Except Unit (Session × List Nat) :=
  match file with
  | none => .ok (s, [SERVER_FILE_UPDATE])
  | some f =>
    if info = md5 f then
      match s.checked with
      | none => .error ()
      | some t => .ok ({s with checked := some (t - 1)}, [])
    else .ok (s, [SERVER_FILE_UPDATE])

/-! ## The check/sync barrier — `fileCheckCallBack` (part_000 lines 174-184)

`fileCheckCallBack(socket, total)` installs
`socket.checked = () => { if ((total -= 1) === 0) Promise.all(socket.sync).then(write CHECK_OFF) }`.
Each invocation decrements the captured `total`; the completion action
(awaiting the sync tasks and then writing `SERVER_CHECK_OFF`) is triggered
exactly by the invocation that makes the count zero. -/

/-- One invocation of the installed closure: the new count, and whether this
invocation triggers the completion action. -/
def checked (total : Int) : Int × Bool := (total - 1, decide (total - 1 = 0))

/-- The count after `k` invocations of `checked`, starting from the
installed `total`. -/
def checkedRun (total : Int) : Nat → Int
  | 0 => total
  | k + 1 => (checked (checkedRun total k)).1

/-- Whether the `k`-th invocation (`k ≥ 1`) triggers the completion action;
`fireAt total 0 = false` since no invocation has happened yet. -/
def fireAt (total : Int) : Nat → Bool
  | 0 => false
  | k + 1 => (checked (checkedRun total k)).2

/-! ## Event traces of `fileSync` — part_000 lines 80-112 and 152-167

JavaScript callbacks run to completion, so the sequence of the relevant
events of one `fileSync` message is fully determined by the source:

* non-manifest path: the handler pushes the write task (line 155, executor
  starts `fileCover`) and *synchronously* calls `socket.checked()`
  (line 166); the write completes later (line 93 callback), which resolves
  the task (`cb = resolve`, line 156);
* manifest path (`package.json`): the handler only pushes the task; when
  the write completes, the callback (lines 93-110) pushes the install task
  (starting the install, lines 101-107) and then calls `cb`
  (lines 158-161), which runs `socket.checked()` and resolves the sync
  task — still inside the write callback, hence strictly before the
  `npm.install` completion callback (utils.js line 129) can run;
  the install completes later. -/

inductive Ev where
  /-- Models `socket.sync.push(new Promise(...))`, part_000 line 155. -/
  | enqueueSync
  /-- Models `socket.checked()`, part_000 line 159 (manifest) or 166 (other). -/
  | decr
  /-- the `fs.writeFile` callback starts, part_000 line 93. -/
  | writeDone
  /-- the install task is pushed and `install` launched, lines 101-107. -/
  | installStart
  /-- the `fileSync` promise resolves, line 157 or 160. -/
  | resolveSync
  /-- the `npm.install` completion callback, utils.js line 129. -/
  | installDone
deriving DecidableEq, Repr

/-- The event order of one successful `fileSync` of a manifest
(`package.json`) or non-manifest path, per the run-to-completion argument
above. -/
def fileSyncTrace (isPackageJson : Bool) : List Ev :=
  if isPackageJson then
    [.enqueueSync, .writeDone, .installStart, .decr, .resolveSync,
      .installDone]
  else [.enqueueSync, .decr, .writeDone, .resolveSync]

/-! ## Build streaming — `build` (part_000 lines 201-232)

After the builder resolves, the worker enumerates the output files and
maps each to a promise (lines 210-225): a failed `fs.readFile` logs,
relays a console error and calls `reject(err)` (lines 212-216) — no frame
for that file; a file whose `md5(data).toString()` is a key of
`socket.distIgnore` just resolves (line 218) — skipped; every other file
is passed to `signal.encode` and written as a `SERVER_BUILD_FILE_SYNC`
frame (content = file data, note = path relative to the output directory,
lines 220-224) — unless the frame would exceed the 5 MiB cap, in which
case `encode` refuses and no frame reaches the wire.  Only when
`Promise.all` resolves — every read succeeded and every written file's
promise settled — are the Done console line and the single `SERVER_FIN`
frame written (lines 226-227); a rejected read leaves the `.then` chain
unreached, so no fin is ever emitted (the other files' writes still
happen in their own callbacks).  The hash is the crypto collaborator,
abstracted as a parameter; `files` is the enumeration of the output
directory as (relative path bytes, read result) pairs, `none` being a
read error.  The reads complete in an arbitrary order; the properties
proved below are order-insensitive, so the model uses enumeration order,
keeping the `fin` frame (when emitted) after all sync frames exactly as
`Promise.all(...).then` does.  On the oversize path, `socket.write`
additionally receives `encode`'s non-buffer `{}` result, whose promise
never resolves; the theorems below exclude that path by hypothesis and
never pin behaviour there beyond "no frame is streamed for the file". -/

/-- The frame one enumerated output file contributes (part_000
lines 211-224): `none` on a read error (the promise rejects), on an
ignored hash, or when `encode` refuses the oversize frame. -/
def buildFileFrame (md5 : List Nat → List Nat) (distIgnore : List (List Nat))
    (pd : List Nat × Option (List Nat)) : Option Frame :=
  match pd.2 with
  | none => none
  | some data =>
    if md5 data ∈ distIgnore then none
    else
      match encode SERVER_BUILD_FILE_SYNC data pd.1 with
      | none => none
      | some _ => some ⟨SERVER_BUILD_FILE_SYNC, data, pd.1⟩

/-- Whether one enumerated file's promise resolves: a read error rejects
it (lines 212-216), and an oversize frame's `socket.write` never calls
`resolve`; only if every file resolves does `Promise.all` fire the fin
write. -/
def buildResolves (md5 : List Nat → List Nat) (distIgnore : List (List Nat))
    (pd : List Nat × Option (List Nat)) : Bool :=
  match pd.2 with
  | none => false
  | some data =>
    decide (md5 data ∈ distIgnore) ||
      (encode SERVER_BUILD_FILE_SYNC data pd.1).isSome

def build (md5 : List Nat → List Nat) (distIgnore : List (List Nat))
    (files : List (List Nat × Option (List Nat))) : List Frame :=
  let frames := files.filterMap (buildFileFrame md5 distIgnore)
  if files.all (buildResolves md5 distIgnore) then
    frames ++ [⟨SERVER_FIN, [], []⟩]
  else frames

/-! ## Directory ensuring — `dirCheck` (utils.js lines 24-50)

`dirCheck(checkpath, cb)` splits the path on runs of slashes or
backslashes (`checkpath.split(/\\+|\/+/)`), pops the final segment iff it
contains a `'.'` character, and then ensures a directory exists at the
`path.posix.join` of the remaining segments, creating missing ancestors
recursively (`checkAndCreate`). -/

/-- A character the split regex `/\\+|\/+/` treats as a separator. -/
def isSep (c : Char) : Bool := c = '/' || c = '\\'

/-- Split on every single separator character (runs not yet collapsed). -/
def splitChar : List Char → List (List Char)
  | [] => [[]]
  | c :: rest =>
    if isSep c then [] :: splitChar rest
    else
      match splitChar rest with
      | s :: ss => (c :: s) :: ss
      | [] => [[c]]

/-- Drop empty pieces except in the last position. -/
def dropInteriorEmpty : List (List Char) → List (List Char)
  | [] => []
  | [x] => [x]
  | x :: y :: xs =>
    if x.isEmpty then dropInteriorEmpty (y :: xs)
    else x :: dropInteriorEmpty (y :: xs)

/-- Drop empty pieces except in the first and last positions. -/
def collapse : List (List Char) → List (List Char)
  | [] => []
  | [x] => [x]
  | x :: y :: xs => x :: dropInteriorEmpty (y :: xs)

/-- JS `checkpath.split(/\\+|\/+/)`: each maximal run of separators is one
separator, so the pieces are those between runs — interior pieces are never
empty, while a leading/trailing run contributes an empty first/last piece. -/
def splitPath (s : List Char) : List (List Char) := collapse (splitChar s)

/-- The segments whose join `checkAndCreate` is asked to create as a
directory (utils.js lines 25-28): the split path, with the final segment
popped iff it contains `'.'`. -/
def dirCheck (checkpath : List Char) : List (List Char) :=
  let dirs := splitPath checkpath
  if (dirs.getLastD []).contains '.' then dirs.dropLast else dirs

/-- Since `path.posix.join` ignores empty segments, on an initially empty
filesystem `checkAndCreate` (utils.js lines 35-49) ends up creating the
join target and every missing ancestor: all nonempty prefixes of the
nonempty-segment list. -/
def createdDirs (checkpath : List Char) : List (List (List Char)) :=
  let target := (dirCheck checkpath).filter fun seg => !seg.isEmpty
  (List.range target.length).map fun k => target.take (k + 1)

/-- The nonempty segments a path resolves to (the claims exercise no `.` or
`..` path components). -/
def normSegs (p : List Char) : List (List Char) :=
  (splitPath p).filter fun seg => !seg.isEmpty

/-- Node's `fs.writeFile` fails (`EISDIR`) when a directory occupies the
target path: after `dirCheck` ran against an initially empty filesystem,
the subsequent write at `p` (part_000 line 93) fails iff `p` itself is one
of the directories just created. -/
def writeFileFails (p : List Char) : Bool :=
  (createdDirs p).contains (normSegs p)

/-! ## Helper lemmas: `indexOfSub` -/

theorem indexOfSub_bound (l : List Nat) :
    ∀ (pat : List Nat) (i : Nat), indexOfSub l pat = some i →
      i + pat.length ≤ l.length := by
  induction l with
  | nil =>
    intro pat i h
    unfold indexOfSub at h
    split at h
    · rename_i hp
      rw [ List.isPrefixOf_iff_prefix] at hp
      obtain rfl := List.prefix_nil.mp hp
      simp_all
    · simp at h
  | cons a t ih =>
    intro pat i h
    unfold indexOfSub at h
    split at h
    · rename_i hp
      rw [ List.isPrefixOf_iff_prefix] at hp
      have := hp.length_le
      simp at h
      omega
    · rw [Option.map_eq_some'] at h
      obtain ⟨j, hj, rfl⟩ := h
      have := ih pat j hj
      simp
      omega

theorem indexOfSub_eq_none_iff (l pat : List Nat) :
    indexOfSub l pat = none ↔ ∀ i, ¬ pat <+: l.drop i := by
  induction l with
  | nil =>
    unfold indexOfSub
    split
    · rename_i hp
      rw [ List.isPrefixOf_iff_prefix] at hp
      simp only [List.drop_nil]
      exact ⟨fun h => by simp at h, fun h => absurd hp (h 0)⟩
    · rename_i hp
      rw [ List.isPrefixOf_iff_prefix] at hp
      simp only [List.drop_nil]
      exact ⟨fun _ i => hp, fun _ => by trivial⟩
  | cons a t ih =>
    unfold indexOfSub
    split
    · rename_i hp
      rw [ List.isPrefixOf_iff_prefix] at hp
      constructor
      · intro h; simp at h
      · intro h; exact absurd hp (h 0)
    · rename_i hp
      rw [ List.isPrefixOf_iff_prefix] at hp
      rw [Option.map_eq_none', ih]
      constructor
      · intro h i
        match i with
        | 0 => simpa using hp
        | i + 1 => simpa [List.drop_succ_cons] using h i
      · intro h i
        simpa [List.drop_succ_cons] using h (i + 1)

theorem indexOfSub_eq_some_iff (l pat : List Nat) :
    ∀ n, indexOfSub l pat = some n ↔
      (pat <+: l.drop n ∧ ∀ m, m < n → ¬ pat <+: l.drop m) := by
  induction l with
  | nil =>
    intro n
    unfold indexOfSub
    split
    · rename_i hp
      rw [ List.isPrefixOf_iff_prefix] at hp
      constructor
      · intro h
        simp at h
        subst h
        simpa using hp
      · rintro ⟨h1, h2⟩
        match n with
        | 0 => rfl
        | n + 1 => exact absurd (by simpa using hp) (h2 0 (by omega))
    · rename_i hp
      rw [ List.isPrefixOf_iff_prefix] at hp
      constructor
      · intro h; simp at h
      · rintro ⟨h1, h2⟩
        simp only [List.drop_nil] at h1
        exact absurd h1 hp
  | cons a t ih =>
    intro n
    unfold indexOfSub
    split
    · rename_i hp
      rw [ List.isPrefixOf_iff_prefix] at hp
      constructor
      · intro h
        simp at h
        subst h
        simpa using hp
      · rintro ⟨h1, h2⟩
        match n with
        | 0 => rfl
        | n + 1 => exact absurd (by simpa using hp) (h2 0 (by omega))
    · rename_i hp
      rw [ List.isPrefixOf_iff_prefix] at hp
      rw [Option.map_eq_some']
      constructor
      · rintro ⟨j, hj, rfl⟩
        obtain ⟨h1, h2⟩ := (ih j).mp hj
        refine ⟨by simpa [List.drop_succ_cons] using h1, ?_⟩
        intro m hm
        match m with
        | 0 => simpa using hp
        | m + 1 => simpa [List.drop_succ_cons] using h2 m (by omega)
      · rintro ⟨h1, h2⟩
        match n with
        | 0 => exact absurd (by simpa using h1) hp
        | n + 1 =>
          refine ⟨n, (ih n).mpr ⟨by simpa [List.drop_succ_cons] using h1, ?_⟩, rfl⟩
          intro m hm
          simpa [List.drop_succ_cons] using h2 (m + 1) (by omega)

theorem prefix_of_prefix_append {p l₁ l₂ : List Nat} (h : p <+: l₁ ++ l₂)
    (hl : p.length ≤ l₁.length) : p <+: l₁ := by
  rw [List.prefix_iff_eq_take] at h
  have h2 : p = l₁.take p.length := by
    nth_rewrite 1 [h]
    exact List.take_append_of_le_length hl
  exact h2 ▸ List.take_prefix _ _

/-! ## Helper lemmas: hex rendering and the length field -/

theorem fromHex_foldl (ys : List Nat) :
    ∀ a, ys.foldl (fun acc d => acc * 16 + d) a = a * 16 ^ ys.length + fromHex ys := by
  induction ys with
  | nil => intro a; simp [fromHex]
  | cons d ys ih =>
    intro a
    have hd : fromHex (d :: ys) = d * 16 ^ ys.length + fromHex ys := by
      show ys.foldl _ (0 * 16 + d) = _
      rw [ih (0 * 16 + d)]
      ring_nf
    show ys.foldl _ (a * 16 + d) = _
    rw [ih (a * 16 + d), hd]
    simp [List.length_cons]
    ring

theorem fromHex_append (xs ys : List Nat) :
    fromHex (xs ++ ys) = fromHex xs * 16 ^ ys.length + fromHex ys := by
  unfold fromHex
  rw [List.foldl_append]
  exact fromHex_foldl ys _

theorem fromHex_replicate_zero (m : Nat) :
    fromHex (List.replicate m 0) = 0 := by
  induction m with
  | zero => rfl
  | succ m ih =>
    show List.foldl _ (0 * 16 + 0) _ = 0
    simpa [fromHex] using ih

theorem fromHex_lt (ds : List Nat) (h : ∀ d ∈ ds, d < 16) :
    fromHex ds < 16 ^ ds.length := by
  induction ds with
  | nil => simp [fromHex]
  | cons d t ih =>
    have hd : fromHex (d :: t) = d * 16 ^ t.length + fromHex t := by
      show t.foldl _ (0 * 16 + d) = _
      rw [fromHex_foldl t (0 * 16 + d)]
      ring_nf
    rw [hd]
    have h1 : fromHex t < 16 ^ t.length := ih fun x hx => h x (List.mem_cons_of_mem _ hx)
    have h2 : d < 16 := h d (List.mem_cons_self _ _)
    have h3 : d * 16 ^ t.length + fromHex t < (d + 1) * 16 ^ t.length := by
      have : (d + 1) * 16 ^ t.length = d * 16 ^ t.length + 16 ^ t.length := by ring
      omega
    calc d * 16 ^ t.length + fromHex t < (d + 1) * 16 ^ t.length := h3
      _ ≤ 16 * 16 ^ t.length := Nat.mul_le_mul_right _ (by omega)
      _ = 16 ^ (t.length + 1) := by ring
      _ = 16 ^ (d :: t).length := by simp

theorem toHexCore_fromHex :
    ∀ fuel n, n < fuel → fromHex (toHexCore fuel n) = n := by
  intro fuel
  induction fuel with
  | zero => omega
  | succ fuel ih =>
    intro n hn
    unfold toHexCore
    by_cases h16 : n < 16
    · simp [h16, fromHex]
    · have hdiv : n / 16 < fuel := by
        have h1 : n / 16 < n := Nat.div_lt_self (by omega) (by omega)
        omega
      simp only [h16, if_false]
      rw [fromHex_append, ih _ hdiv]
      simp [fromHex]
      omega

theorem toHexCore_length :
    ∀ fuel n k, n < fuel → n < 16 ^ k → 1 ≤ k →
      (toHexCore fuel n).length ≤ k := by
  intro fuel
  induction fuel with
  | zero => omega
  | succ fuel ih =>
    intro n k hn hk h1
    unfold toHexCore
    by_cases h16 : n < 16
    · simpa [h16] using h1
    · have hdiv : n / 16 < fuel := by
        have := Nat.div_lt_self (show 0 < n by omega) (show 1 < 16 by omega)
        omega
      have hk2 : 2 ≤ k := by
        by_contra hc
        have : k = 1 := by omega
        subst this
        simp at hk
        omega
      have hdk : n / 16 < 16 ^ (k - 1) := by
        rw [Nat.div_lt_iff_lt_mul (by omega)]
        have : 16 ^ (k - 1) * 16 = 16 ^ k := by
          rw [← pow_succ]
          congr 1
          omega
        omega
      have := ih (n / 16) (k - 1) hdiv hdk (by omega)
      simp only [h16, if_false, List.length_append, List.length_cons,
        List.length_nil]
      omega

theorem toHexCore_digits_lt :
    ∀ fuel n d, d ∈ toHexCore fuel n → d < 16 := by
  intro fuel
  induction fuel with
  | zero => intro n d h; simp [toHexCore] at h
  | succ fuel ih =>
    intro n d h
    unfold toHexCore at h
    by_cases h16 : n < 16
    · simp [h16] at h
      omega
    · simp only [h16, if_false, List.mem_append] at h
      rcases h with h | h
      · exact ih _ _ h
      · simp at h
        subst h
        exact Nat.mod_lt _ (by omega)

theorem fromHex_toHex (n : Nat) : fromHex (toHex n) = n :=
  toHexCore_fromHex (n + 1) n (Nat.lt_succ_self n)

theorem toHex_length_le (n k : Nat) (h : n < 16 ^ k) (hk : 1 ≤ k) :
    (toHex n).length ≤ k :=
  toHexCore_length (n + 1) n k (Nat.lt_succ_self n) h hk

theorem toHex_digits_lt (n d : Nat) (h : d ∈ toHex n) : d < 16 :=
  toHexCore_digits_lt (n + 1) n d h

theorem zeroFillBuffers_length (ds : List Nat) (k : Nat) (h : ds.length ≤ k) :
    (zeroFillBuffers ds k).length = k := by
  simp [zeroFillBuffers]
  omega

theorem zeroFillBuffers_fromHex (ds : List Nat) (k : Nat) :
    fromHex (zeroFillBuffers ds k) = fromHex ds := by
  unfold zeroFillBuffers
  rw [fromHex_append, fromHex_replicate_zero]
  simp

theorem zeroFillBuffers_digits_lt (ds : List Nat) (k : Nat)
    (h : ∀ d ∈ ds, d < 16) : ∀ d ∈ zeroFillBuffers ds k, d < 16 := by
  intro d hd
  unfold zeroFillBuffers at hd
  rw [List.mem_append] at hd
  rcases hd with hd | hd
  · have := List.eq_of_mem_replicate hd
    omega
  · exact h d hd

/-- The three length bytes reconstruct the in-cap length big-endian, and each
is a byte. -/
theorem lengthBytes_spec (L : Nat) (h : L ≤ MAX_INFO_SIZE) :
    (lengthBytes L).1 * 65536 + (lengthBytes L).2.1 * 256 + (lengthBytes L).2.2 = L ∧
    (lengthBytes L).1 < 256 ∧ (lengthBytes L).2.1 < 256 ∧ (lengthBytes L).2.2 < 256 := by
  have hL : L < 16 ^ 6 := by
    have : MAX_INFO_SIZE < 16 ^ 6 := by norm_num [MAX_INFO_SIZE, MAX]
    omega
  have hlen : (toHex L).length ≤ 6 := toHex_length_le L 6 hL (by omega)
  simp only [lengthBytes]
  set lx := zeroFillBuffers (toHex L) 6 with hlx
  have hlxlen : lx.length = 6 := zeroFillBuffers_length _ _ hlen
  have hdig : ∀ d ∈ lx, d < 16 :=
    zeroFillBuffers_digits_lt _ _ (toHex_digits_lt L)
  have h4 : (lx.drop 2).drop 2 = lx.drop 4 := by
    rw [List.drop_drop]
  have hsplit2 : lx = lx.take 2 ++ ((lx.drop 2).take 2 ++ lx.drop 4) := by
    rw [← h4, List.take_append_drop, List.take_append_drop]
  have hlen1 : (lx.take 2).length = 2 := by
    rw [List.length_take]
    omega
  have hlen2 : ((lx.drop 2).take 2).length = 2 := by
    rw [List.length_take, List.length_drop]
    omega
  have hlen3 : (lx.drop 4).length = 2 := by
    rw [List.length_drop]
    omega
  have hval : fromHex lx = L := by
    rw [hlx, zeroFillBuffers_fromHex, fromHex_toHex]
  have hrec : fromHex (lx.take 2) * 65536 +
      (fromHex ((lx.drop 2).take 2) * 256 + fromHex (lx.drop 4)) = L := by
    rw [hsplit2] at hval
    rw [fromHex_append, fromHex_append, List.length_append, hlen2, hlen3]
      at hval
    norm_num at hval
    omega
  have hb : ∀ (s : List Nat), s.length = 2 → (∀ d ∈ s, d < 16) →
      fromHex s < 256 := by
    intro s hs hd
    have := fromHex_lt s hd
    rw [hs] at this
    norm_num at this
    omega
  have hd1 : ∀ d ∈ lx.take 2, d < 16 := fun d hd => hdig d (List.mem_of_mem_take hd)
  have hd2 : ∀ d ∈ (lx.drop 2).take 2, d < 16 :=
    fun d hd => hdig d (List.mem_of_mem_drop (List.mem_of_mem_take hd))
  have hd3 : ∀ d ∈ lx.drop 4, d < 16 := fun d hd => hdig d (List.mem_of_mem_drop hd)
  exact ⟨by omega, hb _ hlen1 hd1, hb _ hlen2 hd2, hb _ hlen3 hd3⟩

/-- The un-padded reassembled length never exceeds the big-endian value the
three bytes stand for. -/
theorem readLen_le (b0 b1 b2 : Nat) (h1 : b1 < 256)
    (h2 : b2 < 256) : readLen b0 b1 b2 ≤ b0 * 65536 + b1 * 256 + b2 := by
  unfold readLen
  rw [fromHex_append, fromHex_append]
  rw [fromHex_toHex, fromHex_toHex, fromHex_toHex]
  have e1 : (toHex b1).length ≤ 2 := toHex_length_le b1 2 (by omega) (by omega)
  have e2 : (toHex b2).length ≤ 2 := toHex_length_le b2 2 (by omega) (by omega)
  have p1 : (16 : Nat) ^ (toHex b2).length ≤ 16 ^ 2 :=
    Nat.pow_le_pow_right (by omega) e2
  have p2 : (16 : Nat) ^ (toHex b1).length ≤ 16 ^ 2 :=
    Nat.pow_le_pow_right (by omega) e1
  have step1 : (b0 * 16 ^ (toHex b1).length + b1) * 16 ^ (toHex b2).length ≤
      (b0 * 16 ^ 2 + b1) * 16 ^ 2 := by
    apply Nat.mul_le_mul _ p1
    have : b0 * 16 ^ (toHex b1).length ≤ b0 * 16 ^ 2 := Nat.mul_le_mul_left _ p2
    omega
  have : (b0 * 16 ^ 2 + b1) * 16 ^ 2 = b0 * 65536 + b1 * 256 := by norm_num; ring
  omega

/-! ## Helper lemmas: the shape of an encoded frame -/

theorem encode_eq {t : Nat} {c n f : List Nat} (h : encode t c n = some f) :
    12 + n.length + c.length ≤ MAX_INFO_SIZE ∧
    f = START ++ [(lengthBytes (12 + n.length + c.length)).1,
        (lengthBytes (12 + n.length + c.length)).2.1,
        (lengthBytes (12 + n.length + c.length)).2.2] ++ [t] ++ n ++
        BOUNDARY ++ c ++ END := by
  have hLeq : START.length + 3 + 1 + n.length + BOUNDARY.length + c.length +
      END.length = 12 + n.length + c.length := by
    simp [START, BOUNDARY, END]
    omega
  simp only [encode] at h
  rw [hLeq] at h
  by_cases hc : MAX_INFO_SIZE < 12 + n.length + c.length
  · rw [if_pos hc] at h
    simp at h
  · rw [if_neg hc] at h
    simp only [Option.some.injEq] at h
    exact ⟨by omega, h.symm⟩

theorem exists_concat_two (X : List Nat) (h : 2 ≤ X.length) :
    ∃ p a b, X = p ++ [a, b] := by
  match hrev : X.reverse with
  | [] =>
    have hlen : X.length = 0 := by simpa using congrArg List.length hrev
    omega
  | [x] =>
    have hlen : X.length = 1 := by simpa using congrArg List.length hrev
    omega
  | b :: a :: tl =>
    refine ⟨tl.reverse, a, b, ?_⟩
    have h2 := congrArg List.reverse hrev
    rw [List.reverse_reverse] at h2
    rw [h2]
    simp

theorem encode_shape {t : Nat} {c n f : List Nat} (h : encode t c n = some f) :
    ∃ p a b, f = p ++ [a, b] ++ END := by
  obtain ⟨_, hf⟩ := encode_eq h
  set X := START ++ [(lengthBytes (12 + n.length + c.length)).1,
      (lengthBytes (12 + n.length + c.length)).2.1,
      (lengthBytes (12 + n.length + c.length)).2.2] ++ [t] ++ n ++
      BOUNDARY ++ c with hXdef
  have hXlen : 2 ≤ X.length := by
    rw [hXdef]
    simp [START, BOUNDARY]
  obtain ⟨p, a, b, hpab⟩ := exists_concat_two X hXlen
  exact ⟨p, a, b, by rw [hf, hpab, List.append_assoc]⟩

theorem encode_head {t : Nat} {c n f : List Nat} (h : encode t c n = some f) :
    ∃ r, f = START ++ r := by
  obtain ⟨_, hf⟩ := encode_eq h
  refine ⟨[(lengthBytes (12 + n.length + c.length)).1,
      (lengthBytes (12 + n.length + c.length)).2.1,
      (lengthBytes (12 + n.length + c.length)).2.2] ++ [t] ++ n ++
      BOUNDARY ++ c ++ END, ?_⟩
  rw [hf]
  simp [List.append_assoc]

theorem encode_length {t : Nat} {c n f : List Nat} (h : encode t c n = some f) :
    f.length = 12 + n.length + c.length := by
  obtain ⟨_, hf⟩ := encode_eq h
  rw [hf]
  simp [START, BOUNDARY, END]
  omega

/-- Decoding a complete encoded frame against an empty buffer: the markers
match, the reparsed length passes the cap check, and the frame is emitted by
splitting the stripped body at the first `BOUNDARY`. -/
theorem decodeChunk_encode_match {t : Nat} {c n f : List Nat}
    (h : encode t c n = some f) :
    decodeChunk f [] =
      match indexOfSub (n ++ BOUNDARY ++ c) BOUNDARY with
      | some i => (some ⟨t, (n ++ BOUNDARY ++ c).drop (i + 2),
          (n ++ BOUNDARY ++ c).take i⟩, [])
      | none => (some ⟨t, (n ++ BOUNDARY ++ c).drop 1,
          (n ++ BOUNDARY ++ c).take ((n ++ BOUNDARY ++ c).length - 1)⟩, []) := by
  obtain ⟨hcap, hf⟩ := encode_eq h
  have hflen := encode_length h
  set b0 := (lengthBytes (12 + n.length + c.length)).1 with hb0d
  set b1 := (lengthBytes (12 + n.length + c.length)).2.1 with hb1d
  set b2 := (lengthBytes (12 + n.length + c.length)).2.2 with hb2d
  obtain ⟨hrec, h0, h1, h2⟩ := lengthBytes_spec (12 + n.length + c.length) hcap
  have hf' : f = 0x12 :: 0x23 :: 0x33 :: b0 :: b1 :: b2 :: t ::
      (n ++ (0x10 :: 0x03 :: (c ++ [0xAB, 0xCD, 0xEF]))) := by
    rw [hf]
    simp [START, BOUNDARY, END]
  have hTake : f.take 3 = START := by
    rw [hf']
    simp [START, List.take_succ_cons]
  have hDrop : f.drop (f.length - 3) = END := by
    have hX : f = (START ++ [b0, b1, b2] ++ [t] ++ n ++ BOUNDARY ++ c) ++ END := hf
    have hL3 : f.length - 3 =
        (START ++ [b0, b1, b2] ++ [t] ++ n ++ BOUNDARY ++ c).length := by
      rw [hflen]
      simp only [List.length_append, List.length_cons, List.length_nil,
        START, BOUNDARY]
      omega
    rw [hL3, hX, List.drop_left]
  have hg3 : f.getD 3 0 = b0 := by
    rw [hf']
    simp [List.getD_cons_succ, List.getD_cons_zero]
  have hg4 : f.getD 4 0 = b1 := by
    rw [hf']
    simp [List.getD_cons_succ, List.getD_cons_zero]
  have hg5 : f.getD 5 0 = b2 := by
    rw [hf']
    simp [List.getD_cons_succ, List.getD_cons_zero]
  have hg6 : f.getD 6 0 = t := by
    rw [hf']
    simp [List.getD_cons_succ, List.getD_cons_zero]
  have hcapOK : ¬ MAX_INFO_SIZE < readLen b0 b1 b2 := by
    have := readLen_le b0 b1 b2 h1 h2
    omega
  have hbody : (f.drop 7).take (f.length - 3 - 7) = n ++ BOUNDARY ++ c := by
    have hP : f = (START ++ [b0, b1, b2] ++ [t]) ++ (n ++ BOUNDARY ++ c ++ END) := by
      rw [hf]
      simp [List.append_assoc]
    have hd7 : f.drop 7 = n ++ BOUNDARY ++ c ++ END := by
      rw [hP, List.drop_left']
      simp [START]
    rw [hd7]
    have hE : n ++ BOUNDARY ++ c ++ END = (n ++ BOUNDARY ++ c) ++ END := by
      simp [List.append_assoc]
    have hL10 : f.length - 3 - 7 = (n ++ BOUNDARY ++ c).length := by
      rw [hflen]
      simp only [List.length_append, BOUNDARY, List.length_cons,
        List.length_nil]
      omega
    rw [hL10, hE, List.take_left]
  simp only [decodeChunk, List.nil_append]
  rw [if_neg (not_not_intro ⟨hTake, hDrop⟩)]
  rw [hg3, hg4, hg5, if_neg hcapOK, hg6, hbody]

/-- When the note holds no `BOUNDARY`, the first `BOUNDARY` of the stripped
body sits exactly at the end of the note (the two-byte marker cannot
straddle the junction, because its two bytes differ). -/
theorem indexOfSub_boundary (n c : List Nat)
    (hn : indexOfSub n BOUNDARY = none) :
    indexOfSub (n ++ BOUNDARY ++ c) BOUNDARY = some n.length := by
  induction n with
  | nil =>
    show indexOfSub (BOUNDARY ++ c) BOUNDARY = some 0
    have hp : BOUNDARY.isPrefixOf (0x10 :: 0x03 :: c) = true := by
      rw [ List.isPrefixOf_iff_prefix]
      exact ⟨c, rfl⟩
    show indexOfSub (0x10 :: 0x03 :: c) BOUNDARY = some 0
    unfold indexOfSub
    rw [if_pos hp]
  | cons a nt ih =>
    have hsplit : indexOfSub (a :: nt) BOUNDARY = none := hn
    unfold indexOfSub at hsplit
    have hnt : indexOfSub nt BOUNDARY = none := by
      by_cases hp : BOUNDARY.isPrefixOf (a :: nt) = true
      · rw [if_pos hp] at hsplit
        simp at hsplit
      · rw [if_neg hp] at hsplit
        rw [Option.map_eq_none'] at hsplit
        exact hsplit
    have hnp : ¬ BOUNDARY <+: (a :: nt) := by
      intro hp
      rw [← List.isPrefixOf_iff_prefix] at hp
      rw [if_pos hp] at hsplit
      simp at hsplit
    show indexOfSub (a :: (nt ++ BOUNDARY ++ c)) BOUNDARY = some (nt.length + 1)
    unfold indexOfSub
    rw [if_neg ?hpre]
    case hpre =>
      rw [ List.isPrefixOf_iff_prefix]
      intro hp
      match nt with
      | [] =>
        rw [show ([] : List Nat) ++ BOUNDARY ++ c = 0x10 :: 0x03 :: c from rfl]
          at hp
        rw [show BOUNDARY = [0x10, 0x03] from rfl] at hp
        rw [List.cons_prefix_cons] at hp
        obtain ⟨rfl, hp2⟩ := hp
        rw [List.cons_prefix_cons] at hp2
        omega
      | b :: nt2 =>
        rw [show (b :: nt2) ++ BOUNDARY ++ c = b :: (nt2 ++ BOUNDARY ++ c)
          from by simp] at hp
        rw [show BOUNDARY = [0x10, 0x03] from rfl] at hp
        rw [List.cons_prefix_cons, List.cons_prefix_cons] at hp
        obtain ⟨rfl, rfl, _⟩ := hp
        exact hnp (by
          rw [show BOUNDARY = [0x10, 0x03] from rfl]
          rw [List.cons_prefix_cons, List.cons_prefix_cons]
          exact ⟨rfl, rfl, List.nil_prefix⟩)
    rw [ih hnt]
    rfl

/-! ## Helper lemmas: `split` on concatenated frames -/

theorem indexOfSub_nil_joint : indexOfSub [] JOINT = none := by decide

theorem cut_of_fuel (fuel : Nat) (data : List Nat) (h : 1 ≤ fuel)
    (hidx : indexOfSub data JOINT = none) : cut fuel data = [data] := by
  match fuel with
  | f + 1 =>
    unfold cut
    rw [hidx]

theorem cut_succ_some (fuel : Nat) (data : List Nat) (i : Nat)
    (h : indexOfSub data JOINT = some i) :
    cut (fuel + 1) data =
      data.take (i + END.length) :: cut fuel (data.drop (i + END.length)) := by
  simp only [cut]
  rw [h]

/-- Fuel irrelevance: `cut` does not depend on the fuel, as long as the
fuel covers the data length. -/
theorem cut_congr : ∀ (f1 : Nat) (data : List Nat) (f2 : Nat),
    data.length ≤ f1 → data.length ≤ f2 → cut f1 data = cut f2 data := by
  intro f1
  induction f1 with
  | zero =>
    intro data f2 h1 h2
    have hdd : data = [] := List.eq_nil_of_length_eq_zero (by omega)
    subst hdd
    cases f2 with
    | zero => rfl
    | succ m =>
      show [([] : List Nat)] = cut (m + 1) []
      rw [cut_of_fuel (m + 1) [] (by omega) indexOfSub_nil_joint]
  | succ f1 ih =>
    intro data f2 h1 h2
    cases f2 with
    | zero =>
      have hdd : data = [] := List.eq_nil_of_length_eq_zero (by omega)
      subst hdd
      rw [cut_of_fuel (f1 + 1) [] (by omega) indexOfSub_nil_joint]
      rfl
    | succ m =>
      cases hidx : indexOfSub data JOINT with
      | none =>
        rw [cut_of_fuel (f1 + 1) data (by omega) hidx,
          cut_of_fuel (m + 1) data (by omega) hidx]
      | some i =>
        have hbound := indexOfSub_bound data JOINT i hidx
        have hJlen : JOINT.length = 6 := by decide
        rw [hJlen] at hbound
        have hElen : END.length = 3 := by decide
        rw [cut_succ_some f1 data i hidx, cut_succ_some m data i hidx]
        congr 1
        apply ih
        · rw [List.length_drop, hElen]
          omega
        · rw [List.length_drop, hElen]
          omega

/-- A chunk with no `JOINT` splits into itself alone. -/
theorem split_eq_single (f : List Nat) (hJ : indexOfSub f JOINT = none) :
    split f = [f] := by
  unfold split
  cases hfl : f.length with
  | zero =>
    have : f = [] := List.eq_nil_of_length_eq_zero hfl
    subst this
    rfl
  | succ k => exact cut_of_fuel (k + 1) f (by omega) hJ

/-- The first `JOINT` of `frame ++ rest` sits exactly at the frame's `END`
when the frame itself holds no `JOINT` and `rest` opens with `START`. -/
theorem indexOfSub_frame_joint (f rest : List Nat)
    (hJ : indexOfSub f JOINT = none)
    (hshape : ∃ p a b, f = p ++ [a, b] ++ END)
    (hrest : ∃ r, rest = START ++ r) :
    indexOfSub (f ++ rest) JOINT = some (f.length - 3) := by
  obtain ⟨p, a, b, hpab⟩ := hshape
  obtain ⟨r, hr⟩ := hrest
  have hflen : f.length = p.length + 5 := by
    rw [hpab]
    simp [END]
  rw [indexOfSub_eq_some_iff]
  constructor
  · have hlen : f.length - 3 = (p ++ [a, b]).length := by
      simp only [List.length_append, List.length_cons, List.length_nil]
      omega
    rw [hlen]
    have hform : f ++ rest = (p ++ [a, b]) ++ (JOINT ++ r) := by
      rw [hpab, hr]
      simp [JOINT, List.append_assoc]
    rw [hform, List.drop_left]
    exact ⟨r, rfl⟩
  · intro m hm hpre
    by_cases hcase : m + 6 ≤ f.length
    · have hmle : m ≤ f.length := by omega
      have hdist : (f ++ rest).drop m = f.drop m ++ rest :=
        List.drop_append_of_le_length hmle
      rw [hdist] at hpre
      have hlen6 : JOINT.length ≤ (f.drop m).length := by
        rw [List.length_drop]
        have : JOINT.length = 6 := by decide
        omega
      have hin : JOINT <+: f.drop m := prefix_of_prefix_append hpre hlen6
      exact (indexOfSub_eq_none_iff f JOINT).mp hJ m hin
    · have hmcases : m = p.length ∨ m = p.length + 1 := by omega
      rcases hmcases with rfl | rfl
      · have hform : f ++ rest = p ++ (a :: b :: 0xAB :: 0xCD :: 0xEF :: rest) := by
          rw [hpab]
          simp [END, List.append_assoc]
        rw [hform, List.drop_left] at hpre
        rw [show JOINT = [0xAB, 0xCD, 0xEF, 0x12, 0x23, 0x33] from rfl] at hpre
        rw [List.cons_prefix_cons] at hpre
        obtain ⟨rfl, hpre⟩ := hpre
        rw [List.cons_prefix_cons] at hpre
        obtain ⟨rfl, hpre⟩ := hpre
        rw [List.cons_prefix_cons] at hpre
        omega
      · have hform : f ++ rest = (p ++ [a]) ++ (b :: 0xAB :: 0xCD :: 0xEF :: rest) := by
          rw [hpab]
          simp [END, List.append_assoc]
        have hlen1 : (p ++ [a]).length = p.length + 1 := by simp
        rw [hform, List.drop_left' hlen1] at hpre
        rw [show JOINT = [0xAB, 0xCD, 0xEF, 0x12, 0x23, 0x33] from rfl] at hpre
        rw [List.cons_prefix_cons] at hpre
        obtain ⟨rfl, hpre⟩ := hpre
        rw [List.cons_prefix_cons] at hpre
        omega

/-- Splitting a frame followed by more stream cuts exactly at the frame
boundary. -/
theorem split_frame_cons (f rest : List Nat)
    (hJ : indexOfSub f JOINT = none)
    (hshape : ∃ p a b, f = p ++ [a, b] ++ END)
    (hrest : ∃ r, rest = START ++ r) :
    split (f ++ rest) = f :: split rest := by
  have hidx := indexOfSub_frame_joint f rest hJ hshape hrest
  obtain ⟨p, a, b, hpab⟩ := hshape
  have hflen : f.length = p.length + 5 := by
    rw [hpab]
    simp [END]
  unfold split
  have hlen : (f ++ rest).length = f.length + rest.length := by simp
  rw [hlen]
  cases hfl : f.length + rest.length with
  | zero => omega
  | succ k =>
    rw [cut_succ_some k (f ++ rest) (f.length - 3) hidx]
    have h3 : f.length - 3 + END.length = f.length := by
      have : END.length = 3 := by decide
      omega
    rw [h3, List.take_left, List.drop_left]
    congr 1
    apply cut_congr
    · omega
    · omega

/-! ## Helper lemmas: the decode folds -/

theorem foldl_decodeStep_acc (pieces : List (List Nat)) :
    ∀ (fs : List Frame) (z : List Nat),
      pieces.foldl decodeStep (fs, z) =
        (fs ++ (pieces.foldl decodeStep ([], z)).1,
          (pieces.foldl decodeStep ([], z)).2) := by
  induction pieces with
  | nil => intro fs z; simp
  | cons piece ps ih =>
    intro fs z
    show ps.foldl decodeStep (decodeStep (fs, z) piece) = _
    have hstep : ∀ fs0 : List Frame, decodeStep (fs0, z) piece =
        (fs0 ++ (decodeStep ([], z) piece).1, (decodeStep ([], z) piece).2) := by
      intro fs0
      unfold decodeStep
      cases hdc : decodeChunk piece z with
      | mk o z2 =>
        cases o with
        | none => simp
        | some fr => simp
    rw [hstep fs]
    cases hbase : decodeStep ([], z) piece with
    | mk fs1 z1 =>
      rw [ih (fs ++ fs1) z1]
      have hstep2 : ps.foldl decodeStep (decodeStep ([], z) piece) =
          (fs1 ++ (ps.foldl decodeStep ([], z1)).1,
            (ps.foldl decodeStep ([], z1)).2) := by
        rw [hbase]
        exact ih fs1 z1
      show (fs ++ fs1 ++ (ps.foldl decodeStep ([], z1)).1,
          (ps.foldl decodeStep ([], z1)).2) =
        (fs ++ (ps.foldl decodeStep (decodeStep ([], z) piece)).1,
          (ps.foldl decodeStep (decodeStep ([], z) piece)).2)
      rw [hstep2]
      simp [List.append_assoc]

theorem foldl_streamStep_acc (chunks : List (List Nat)) :
    ∀ (fs : List Frame) (z : List Nat),
      chunks.foldl streamStep (fs, z) =
        (fs ++ (chunks.foldl streamStep ([], z)).1,
          (chunks.foldl streamStep ([], z)).2) := by
  induction chunks with
  | nil => intro fs z; simp
  | cons piece ps ih =>
    intro fs z
    show ps.foldl streamStep (streamStep (fs, z) piece) = _
    have hstep : ∀ fs0 : List Frame, streamStep (fs0, z) piece =
        (fs0 ++ (streamStep ([], z) piece).1, (streamStep ([], z) piece).2) := by
      intro fs0
      unfold streamStep
      simp
    rw [hstep fs]
    cases hbase : streamStep ([], z) piece with
    | mk fs1 z1 =>
      rw [ih (fs ++ fs1) z1]
      have hstep2 : ps.foldl streamStep (streamStep ([], z) piece) =
          (fs1 ++ (ps.foldl streamStep ([], z1)).1,
            (ps.foldl streamStep ([], z1)).2) := by
        rw [hbase]
        exact ih fs1 z1
      show (fs ++ fs1 ++ (ps.foldl streamStep ([], z1)).1,
          (ps.foldl streamStep ([], z1)).2) =
        (fs ++ (ps.foldl streamStep (streamStep ([], z) piece)).1,
          (ps.foldl streamStep (streamStep ([], z) piece)).2)
      rw [hstep2]
      simp [List.append_assoc]

/-! ## Claim C1 — codec round-trip -/

/-- C1 (counterexample): the round-trip claim fails as stated.  Encoding
type `0x00` with empty content and note `[0x10, 0x03]` (the `BOUNDARY`
bytes) decodes to note `[]` and content `[0x10, 0x03]` instead, because the
decoder splits the body at the *first* `BOUNDARY` occurrence, which here is
the note itself. -/
theorem c1_roundtrip_counterexample :
    decode ((encode 0x00 [] [0x10, 0x03]).getD []) [] ≠
      ([⟨0x00, [], [0x10, 0x03]⟩], []) ∧
    decode ((encode 0x00 [] [0x10, 0x03]).getD []) [] =
      ([⟨0x00, [0x10, 0x03], []⟩], []) := by
  constructor
  · decide
  · decide

/-- C1 (amended): the round-trip holds for every type byte, content and
note within the size cap, provided the note contains no `BOUNDARY` byte
pair and the encoded frame contains no `JOINT` (`END` immediately followed
by `START`) — decoding the encoding with an initially empty reassembly
buffer yields exactly the encoded triple and leaves the buffer empty. -/
theorem c1_roundtrip (t : Nat) (c n f : List Nat) (h : encode t c n = some f)
    (hn : indexOfSub n BOUNDARY = none) (hJ : indexOfSub f JOINT = none) :
    decode f [] = ([⟨t, c, n⟩], []) := by
  have htake : (n ++ BOUNDARY ++ c).take n.length = n := by
    rw [List.append_assoc, List.take_left]
  have hdrop : (n ++ BOUNDARY ++ c).drop (n.length + 2) = c := by
    have hlen : (n ++ BOUNDARY).length = n.length + 2 := by simp [BOUNDARY]
    exact List.drop_left' hlen
  have hmatch2 : decodeChunk f [] = (some ⟨t, c, n⟩, []) := by
    rw [decodeChunk_encode_match h, indexOfSub_boundary n c hn]
    show (some (⟨t, (n ++ BOUNDARY ++ c).drop (n.length + 2),
        (n ++ BOUNDARY ++ c).take n.length⟩ : Frame), ([] : List Nat)) = _
    rw [htake, hdrop]
  unfold decode
  rw [split_eq_single f hJ]
  simp only [List.foldl_cons, List.foldl_nil]
  simp only [decodeStep]
  rw [hmatch2]
  rfl

/-- C1 witness: a concrete instance of the amended round-trip. -/
theorem c1_roundtrip_witness :
    decode [0x12, 0x23, 0x33, 0x00, 0x00, 0x0E, 0x00, 0x01, 0x10, 0x03,
      0x02, 0xAB, 0xCD, 0xEF] [] = ([⟨0x00, [0x02], [0x01]⟩], []) := by
  have h : encode 0x00 [0x02] [0x01] = some [0x12, 0x23, 0x33, 0x00, 0x00,
      0x0E, 0x00, 0x01, 0x10, 0x03, 0x02, 0xAB, 0xCD, 0xEF] := by decide
  exact c1_roundtrip 0x00 [0x02] [0x01] _ h (by decide) (by decide)

/-! ## Claim C2 — chunking invariance -/

/-- C2 (counterexample): chunking invariance fails as stated.  The frame
encoding `{type 0, content = END's bytes, note = []}` cut after byte 12
makes the first chunk itself start with `START` and end with `END`, so the
decoder emits a truncated frame early; decoding the whole frame in one
call gives a different frame sequence. -/
theorem c2_chunking_counterexample :
    ((encode 0x00 [0xAB, 0xCD, 0xEF] []).getD []).take 12 ++
      ((encode 0x00 [0xAB, 0xCD, 0xEF] []).getD []).drop 12 =
      (encode 0x00 [0xAB, 0xCD, 0xEF] []).getD [] ∧
    (decodeStream [((encode 0x00 [0xAB, 0xCD, 0xEF] []).getD []).take 12,
        ((encode 0x00 [0xAB, 0xCD, 0xEF] []).getD []).drop 12] []).1 ≠
      (decode ((encode 0x00 [0xAB, 0xCD, 0xEF] []).getD []) []).1 := by
  constructor
  · decide
  · decide

/-- C2 (amended): chunking invariance holds when the chunk boundaries
coincide with frame boundaries: delivering each frame of a valid
`JOINT`-free frame sequence in its own decode call, against the same
persistent (initially empty) reassembly buffer, yields the same result as
decoding the whole concatenated stream in a single call. -/
theorem c2_chunked (fs : List (List Nat))
    (hF : ∀ f ∈ fs, ∃ t c n, encode t c n = some f)
    (hJ : ∀ f ∈ fs, indexOfSub f JOINT = none) :
    decodeStream fs [] = decode fs.flatten [] := by
  revert hF hJ
  induction fs with
  | nil =>
    intro hF hJ
    rfl
  | cons f fs ih =>
    intro hF hJ
    obtain ⟨t, c, n, hf⟩ := hF f (List.mem_cons_self _ _)
    have hJf := hJ f (List.mem_cons_self _ _)
    have ihh := ih (fun g hg => hF g (List.mem_cons_of_mem _ hg))
      (fun g hg => hJ g (List.mem_cons_of_mem _ hg))
    obtain ⟨fr, hfr⟩ : ∃ fr, decodeChunk f [] = (some fr, []) := by
      rw [decodeChunk_encode_match hf]
      cases hidx : indexOfSub (n ++ BOUNDARY ++ c) BOUNDARY with
      | some i => exact ⟨_, rfl⟩
      | none => exact ⟨_, rfl⟩
    have hdecf : decode f [] = ([fr], []) := by
      unfold decode
      rw [split_eq_single f hJf]
      simp only [List.foldl_cons, List.foldl_nil]
      simp only [decodeStep]
      rw [hfr]
      rfl
    have hstream : decodeStream (f :: fs) [] =
        ([fr] ++ (decodeStream fs []).1, (decodeStream fs []).2) := by
      unfold decodeStream
      simp only [List.foldl_cons]
      have hss : streamStep ([], []) f = ([fr], []) := by
        show ([] ++ (decode f []).1, (decode f []).2) = ([fr], [])
        rw [hdecf]
        rfl
      rw [hss]
      exact foldl_streamStep_acc fs [fr] []
    cases fs with
    | nil =>
      have hfl : (([f] : List (List Nat)).flatten) = f := by simp
      rw [hstream, hfl, hdecf]
      have h0 : decodeStream ([] : List (List Nat)) [] = ([], []) := rfl
      rw [h0]
      simp
    | cons g gs =>
      obtain ⟨tg, cg, ng, hg⟩ := hF g (by simp)
      obtain ⟨rg, hrg⟩ := encode_head hg
      have hrest : ∃ r, (g :: gs).flatten = START ++ r :=
        ⟨rg ++ gs.flatten, by simp [hrg, List.append_assoc]⟩
      have hsplit2 : split (f ++ (g :: gs).flatten) =
          f :: split ((g :: gs).flatten) :=
        split_frame_cons f _ hJf (encode_shape hf) hrest
      have hone : decode (f ++ (g :: gs).flatten) [] =
          ([fr] ++ (decode ((g :: gs).flatten) []).1,
            (decode ((g :: gs).flatten) []).2) := by
        unfold decode
        rw [hsplit2]
        simp only [List.foldl_cons]
        have hds : decodeStep ([], []) f = ([fr], []) := by
          simp only [decodeStep]
          rw [hfr]
          rfl
        rw [hds]
        exact foldl_decodeStep_acc (split ((g :: gs).flatten)) [fr] []
      have hfc : (f :: g :: gs).flatten = f ++ (g :: gs).flatten := rfl
      rw [hstream, ihh, hfc, hone]

/-- C2 witness: two concrete frames, delivered one per call, decode the
same as their concatenation in one call. -/
theorem c2_chunked_witness :
    decodeStream [[0x12, 0x23, 0x33, 0x00, 0x00, 0x0E, 0x00, 0x01, 0x10,
        0x03, 0x02, 0xAB, 0xCD, 0xEF],
      [0x12, 0x23, 0x33, 0x00, 0x00, 0x0E, 0x01, 0x04, 0x10, 0x03, 0x05,
        0xAB, 0xCD, 0xEF]] [] =
    decode ([[0x12, 0x23, 0x33, 0x00, 0x00, 0x0E, 0x00, 0x01, 0x10, 0x03,
        0x02, 0xAB, 0xCD, 0xEF],
      [0x12, 0x23, 0x33, 0x00, 0x00, 0x0E, 0x01, 0x04, 0x10, 0x03, 0x05,
        0xAB, 0xCD, 0xEF]] : List (List Nat)).flatten [] := by
  apply c2_chunked
  · intro f hf
    simp only [List.mem_cons, List.not_mem_nil, or_false] at hf
    rcases hf with rfl | rfl
    · exact ⟨0x00, [0x02], [0x01], by decide⟩
    · exact ⟨0x01, [0x05], [0x04], by decide⟩
  · intro f hf
    simp only [List.mem_cons, List.not_mem_nil, or_false] at hf
    rcases hf with rfl | rfl
    · decide
    · decide

/-! ## Claim C3 — length-field unreliability -/

/-- C3: the decode side's length reassembly (hex texts concatenated without
re-padding, `readLen`) does not invert the encode side's length rendering
(`lengthBytes`): there is an in-cap length (256, whose middle byte is 1 and
outer bytes are 0) whose decoded value differs from the encoded one. -/
theorem c3_length_mismatch :
    ∃ L, L ≤ MAX_INFO_SIZE ∧
      readLen (lengthBytes L).1 (lengthBytes L).2.1 (lengthBytes L).2.2 ≠ L := by
  refine ⟨256, by decide, ?_⟩
  decide

/-! ## Claim C4 — oversize rejection -/

/-- C4 (counterexample): decoding a complete frame whose (reparsed)
declared length exceeds the 5 MiB cap emits no frame, but the offending
data remains in the reassembly buffer — it is *not* dropped, refuting the
claim's "not retained" part. -/
theorem c4_oversize_counterexample :
    decode [0x12, 0x23, 0x33, 0x50, 0x10, 0x10, 0x00, 0x10, 0x03, 0xAB,
      0xCD, 0xEF] [] =
      ([], [0x12, 0x23, 0x33, 0x50, 0x10, 0x10, 0x00, 0x10, 0x03, 0xAB,
        0xCD, 0xEF]) ∧
    ([0x12, 0x23, 0x33, 0x50, 0x10, 0x10, 0x00, 0x10, 0x03, 0xAB, 0xCD,
      0xEF] : List Nat) ≠ [] := by
  constructor
  · decide
  · decide

/-- C4 (amended): encoding a combination whose total frame size exceeds
5 MiB yields no bytes, and decoding a complete-looking frame whose
declared (reparsed) length exceeds 5 MiB emits no frame — but the decoder
*retains* the offending bytes in the reassembly buffer rather than
dropping them. -/
theorem c4_oversize :
    (∀ (t : Nat) (c n : List Nat),
      MAX_INFO_SIZE < START.length + 3 + 1 + n.length + BOUNDARY.length +
        c.length + END.length →
      encode t c n = none) ∧
    (∀ data zone : List Nat,
      (zone ++ data).take 3 = START →
      (zone ++ data).drop ((zone ++ data).length - 3) = END →
      MAX_INFO_SIZE < readLen ((zone ++ data).getD 3 0)
        ((zone ++ data).getD 4 0) ((zone ++ data).getD 5 0) →
      decodeChunk data zone = (none, zone ++ data)) := by
  constructor
  · intro t c n h
    simp only [encode]
    rw [if_pos h]
  · intro data zone h1 h2 h3
    simp only [decodeChunk]
    rw [if_neg (not_not_intro ⟨h1, h2⟩), if_pos h3]

/-- C4 witness: a 5 MiB-filling content makes `encode` refuse, and a
concrete over-declared frame is rejected but retained by `decodeChunk`. -/
theorem c4_oversize_witness :
    encode 0x00 (List.replicate (5 * 1024 * 1024) 0x00) [] = none ∧
    decodeChunk [0x12, 0x23, 0x33, 0x50, 0x10, 0x10, 0x00, 0x10, 0x03,
        0xAB, 0xCD, 0xEF] [] =
      (none, [] ++ [0x12, 0x23, 0x33, 0x50, 0x10, 0x10, 0x00, 0x10, 0x03,
        0xAB, 0xCD, 0xEF]) := by
  constructor
  · apply c4_oversize.1
    rw [List.length_replicate]
    norm_num [MAX_INFO_SIZE, MAX, START, BOUNDARY, END]
  · exact c4_oversize.2 _ [] (by decide) (by decide) (by decide)

/-! ## Claim C5 — barrier exactly-once -/

theorem checkedRun_eq (N : Int) : ∀ j : Nat, checkedRun N j = N - j := by
  intro j
  induction j with
  | zero => simp [checkedRun]
  | succ j ih =>
    show (checked (checkedRun N j)).1 = _
    rw [ih]
    show N - j - 1 = N - (j + 1 : Nat)
    push_cast
    ring

/-- C5 (counterexample): with an announced check-file count of 0, the
completion action never fires — no decrement can ever bring the closure's
count to zero, refuting "fires exactly once" for N = 0. -/
theorem c5_barrier_counterexample : ¬ ∃ k, fireAt 0 k = true := by
  rintro ⟨k, hk⟩
  cases k with
  | zero => simp [fireAt] at hk
  | succ k =>
    have h1 : fireAt 0 (k + 1) = (checked (checkedRun 0 k)).2 := rfl
    rw [h1, checkedRun_eq 0 k] at hk
    simp only [checked, decide_eq_true_eq] at hk
    omega

/-- C5 (amended): for an announced count `N ≥ 1`, the `k`-th invocation of
the barrier closure triggers the completion action (awaiting the sync tasks
and then writing the check-off) iff `k = N`: it fires exactly once, never
before the N-th decrement, and never again on further decrements. -/
theorem c5_barrier_fires_once (N : Int) (k : Nat) (hN : 1 ≤ N) :
    fireAt N k = true ↔ (k : Int) = N := by
  cases k with
  | zero =>
    constructor
    · intro h
      simp [fireAt] at h
    · intro h
      exfalso
      push_cast at h
      omega
  | succ k =>
    show (checked (checkedRun N k)).2 = true ↔ _
    rw [checkedRun_eq N k]
    simp only [checked, decide_eq_true_eq]
    push_cast
    omega

/-- C5 witness: with count 2, the second decrement (and only it) fires. -/
theorem c5_barrier_fires_once_witness :
    fireAt 2 2 = true ∧ fireAt 2 1 = false ∧ fireAt 2 3 = false := by
  refine ⟨(c5_barrier_fires_once 2 2 (by norm_num)).mpr (by norm_num), ?_, ?_⟩
  · have h := c5_barrier_fires_once 2 1 (by norm_num)
    revert h
    decide
  · have h := c5_barrier_fires_once 2 3 (by norm_num)
    revert h
    decide

/-! ## Claim C6 — manifest special-case -/

/-- C6 (counterexample): in the only possible schedule of a manifest
`fileSync` (JavaScript callbacks run to completion), the barrier decrement
happens strictly *before* the install task completes — the write callback
pushes the install promise and then immediately calls `socket.checked()` —
refuting "does not decrement until the install has completed". -/
theorem c6_manifest_counterexample :
    Ev.decr ∈ fileSyncTrace true ∧ Ev.installDone ∈ fileSyncTrace true ∧
    (fileSyncTrace true).indexOf Ev.decr <
      (fileSyncTrace true).indexOf Ev.installDone := by
  decide

/-- C6 (amended): a manifest `File-Sync` defers the barrier decrement until
its file write has completed and its install task has been started (but not
until the install completes — the check-off instead awaits the install
promise through the sync collection); a non-manifest `File-Sync` decrements
immediately upon enqueueing its write task, before the write completes. -/
theorem c6_manifest_order :
    ((fileSyncTrace true).indexOf Ev.writeDone <
        (fileSyncTrace true).indexOf Ev.decr ∧
      (fileSyncTrace true).indexOf Ev.installStart <
        (fileSyncTrace true).indexOf Ev.decr ∧
      (fileSyncTrace true).indexOf Ev.decr <
        (fileSyncTrace true).indexOf Ev.installDone) ∧
    ((fileSyncTrace false).indexOf Ev.enqueueSync <
        (fileSyncTrace false).indexOf Ev.decr ∧
      (fileSyncTrace false).indexOf Ev.decr <
        (fileSyncTrace false).indexOf Ev.writeDone) := by
  decide

/-! ## Claim C7 — session state machine -/

/-- C7 (counterexample): a `Sync-Files-Hash-Set` message arriving before
any `Init` is *not* treated as invalid: the handler runs and replaces the
session's ignore set, so its effect is performed on an uninitialized
session. -/
theorem c7_state_machine_counterexample :
    handle (fun _ => none) (fun _ => some []) (fun _ => 0) uninitSession
        CLIENT_SYNC_FILES_MD5 [] [] =
      .ok ({uninitSession with distIgnore := some []}, []) ∧
    ({uninitSession with distIgnore := some []} : Session) ≠ uninitSession := by
  refine ⟨rfl, ?_⟩
  decide

/-- C7 (amended): the dispatcher performs no state check at all.  On an
uninitialized session, the handlers that dereference the missing identity
or task fields (`File-Change`, `File-Delete`, `File-Check`, `File-Sync`,
`Development`, `Build`) throw a `TypeError` instead of performing their
effect, while `Sync-Files-Hash-Set` and `Number-Of-Check-Files` perform
their effect in full even before `Init`. -/
theorem c7_state_machine (parseInit : List Nat → Option InitInfo)
    (parseObj : List Nat → Option (List (List Nat)))
    (parseNum : List Nat → Int) (c nt : List Nat) :
    handle parseInit parseObj parseNum uninitSession CLIENT_FILE_CHANGE
        c nt = .error () ∧
    handle parseInit parseObj parseNum uninitSession CLIENT_FILE_DELETE
        c nt = .error () ∧
    handle parseInit parseObj parseNum uninitSession CLIENT_FILE_CHECK
        c nt = .error () ∧
    handle parseInit parseObj parseNum uninitSession CLIENT_FILE_SYNC
        c nt = .error () ∧
    handle parseInit parseObj parseNum uninitSession CLIENT_DEVELOPMENT
        c nt = .error () ∧
    handle parseInit parseObj parseNum uninitSession CLIENT_BUILD
        c nt = .error () ∧
    (∀ o, parseObj c = some o →
      handle parseInit parseObj parseNum uninitSession CLIENT_SYNC_FILES_MD5
          c nt = .ok ({uninitSession with distIgnore := some o}, [])) ∧
    handle parseInit parseObj parseNum uninitSession
        CLIENT_NUMBER_OF_CHECK_FILES c nt =
      .ok ({uninitSession with checked := some (parseNum c)}, []) := by
  refine ⟨rfl, rfl, rfl, rfl, rfl, rfl, ?_, rfl⟩
  intro o ho
  show (match parseObj c with
    | none => (.error () : Except Unit (Session × List Nat))
    | some o2 => .ok ({uninitSession with distIgnore := some o2}, [])) = _
  rw [ho]

/-- C7 witness: a concrete uninitialized-session instance of the amended
statement. -/
theorem c7_state_machine_witness :
    handle (fun _ => none) (fun _ => some [[0x61]]) (fun _ => 3)
        uninitSession CLIENT_FILE_CHANGE [] [] = .error () ∧
    handle (fun _ => none) (fun _ => some [[0x61]]) (fun _ => 3)
        uninitSession CLIENT_SYNC_FILES_MD5 [] [] =
      .ok ({uninitSession with distIgnore := some [[0x61]]}, []) := by
  have h := c7_state_machine (fun _ => none) (fun _ => some [[0x61]])
    (fun _ => 3) [] []
  exact ⟨h.1, h.2.2.2.2.2.2.1 [[0x61]] rfl⟩

/-! ## Claim C8 — build streaming -/

theorem buildFileFrame_fin_notin (md5 : List Nat → List Nat)
    (ignore : List (List Nat)) (files : List (List Nat × Option (List Nat))) :
    (⟨SERVER_FIN, [], []⟩ : Frame) ∉
      files.filterMap (buildFileFrame md5 ignore) := by
  intro hmem
  rw [List.mem_filterMap] at hmem
  obtain ⟨pd, _, hpd⟩ := hmem
  cases hd : pd.2 with
  | none => simp [buildFileFrame, hd] at hpd
  | some data =>
    simp only [buildFileFrame, hd] at hpd
    by_cases hig : md5 data ∈ ignore
    · rw [if_pos hig] at hpd
      simp at hpd
    · rw [if_neg hig] at hpd
      cases he : encode SERVER_BUILD_FILE_SYNC data pd.1 with
      | none =>
        rw [he] at hpd
        simp at hpd
      | some b =>
        rw [he] at hpd
        simp only [Option.some.injEq, Frame.mk.injEq] at hpd
        simp [SERVER_BUILD_FILE_SYNC, SERVER_FIN] at hpd

theorem build_count_zero (md5 : List Nat → List Nat)
    (ignore : List (List Nat)) (p d : List Nat) :
    ∀ files : List (List Nat × Option (List Nat)), p ∉ files.map Prod.fst →
      (files.filterMap (buildFileFrame md5 ignore)).count
        ⟨SERVER_BUILD_FILE_SYNC, d, p⟩ = 0 := by
  intro files
  induction files with
  | nil => intro _; rfl
  | cons e rest ih =>
    intro hp
    simp only [List.map_cons, List.mem_cons] at hp
    push_neg at hp
    obtain ⟨hp1, hp2⟩ := hp
    cases hfe : buildFileFrame md5 ignore e with
    | none =>
      simp only [List.filterMap_cons, hfe]
      exact ih hp2
    | some fr =>
      have hne : fr ≠ ⟨SERVER_BUILD_FILE_SYNC, d, p⟩ := by
        cases hd : e.2 with
        | none => simp [buildFileFrame, hd] at hfe
        | some data =>
          simp only [buildFileFrame, hd] at hfe
          by_cases hig : md5 data ∈ ignore
          · rw [if_pos hig] at hfe
            simp at hfe
          · rw [if_neg hig] at hfe
            cases he : encode SERVER_BUILD_FILE_SYNC data e.1 with
            | none =>
              rw [he] at hfe
              simp at hfe
            | some b =>
              rw [he] at hfe
              simp only [Option.some.injEq] at hfe
              subst hfe
              intro hc
              rw [Frame.mk.injEq] at hc
              exact hp1 hc.2.2.symm
      simp only [List.filterMap_cons, hfe]
      rw [List.count_cons_of_ne (Ne.symm hne)]
      exact ih hp2

theorem build_count_one (md5 : List Nat → List Nat)
    (ignore : List (List Nat)) (p d : List Nat) (hnig : md5 d ∉ ignore)
    (henc : (encode SERVER_BUILD_FILE_SYNC d p).isSome = true) :
    ∀ files : List (List Nat × Option (List Nat)),
      (files.map Prod.fst).Nodup → (p, some d) ∈ files →
      (files.filterMap (buildFileFrame md5 ignore)).count
        ⟨SERVER_BUILD_FILE_SYNC, d, p⟩ = 1 := by
  intro files
  induction files with
  | nil =>
    intro _ hmem
    simp at hmem
  | cons e rest ih =>
    intro hnodup hmem
    rw [List.map_cons, List.nodup_cons] at hnodup
    rcases List.mem_cons.mp hmem with heq | hmemr
    · obtain rfl := heq.symm
      have hfe : buildFileFrame md5 ignore (p, some d) =
          some ⟨SERVER_BUILD_FILE_SYNC, d, p⟩ := by
        simp only [buildFileFrame]
        rw [if_neg hnig]
        obtain ⟨b, hb⟩ := Option.isSome_iff_exists.mp henc
        rw [hb]
      simp only [List.filterMap_cons, hfe]
      rw [List.count_cons_self,
        build_count_zero md5 ignore p d rest hnodup.1]
    · have hpmem : p ∈ rest.map Prod.fst :=
        List.mem_map.mpr ⟨(p, some d), hmemr, rfl⟩
      cases hfe : buildFileFrame md5 ignore e with
      | none =>
        simp only [List.filterMap_cons, hfe]
        exact ih hnodup.2 hmemr
      | some fr =>
        have hne : fr ≠ ⟨SERVER_BUILD_FILE_SYNC, d, p⟩ := by
          cases hd : e.2 with
          | none => simp [buildFileFrame, hd] at hfe
          | some data =>
            simp only [buildFileFrame, hd] at hfe
            by_cases hig : md5 data ∈ ignore
            · rw [if_pos hig] at hfe
              simp at hfe
            · rw [if_neg hig] at hfe
              cases he : encode SERVER_BUILD_FILE_SYNC data e.1 with
              | none =>
                rw [he] at hfe
                simp at hfe
              | some b =>
                rw [he] at hfe
                simp only [Option.some.injEq] at hfe
                subst hfe
                intro hc
                rw [Frame.mk.injEq] at hc
                exact hnodup.1 (hc.2.2 ▸ hpmem)
        simp only [List.filterMap_cons, hfe]
        rw [List.count_cons_of_ne (Ne.symm hne)]
        exact ih hnodup.2 hmemr

/-- C8 (counterexample): the claim is false as stated after a successful
builder run alone.  With an empty ignore set and two enumerated files, one
readable and one whose `fs.readFile` fails, the failing read rejects the
`Promise.all`, so the readable file is streamed but *no* fin frame is ever
emitted — refuting "afterwards exactly one fin signal is emitted". -/
theorem c8_build_counterexample :
    build (fun l => l) [] [([0x61], some [1]), ([0x62], none)] =
      [⟨SERVER_BUILD_FILE_SYNC, [1], [0x61]⟩] ∧
    (build (fun l => l) [] [([0x61], some [1]), ([0x62], none)]).count
      ⟨SERVER_FIN, [], []⟩ = 0 := by
  constructor
  · decide
  · decide

/-- C8 (amended): after a Build message and successful builder completion,
provided every enumerated output file is read successfully and every
non-ignored file's frame fits the 5 MiB encode cap: every file whose
content hash is in the session's ignore set is skipped, every other
enumerated file (paths distinct, as a directory enumeration yields) is
streamed as exactly one build-file-sync frame, and afterwards exactly one
fin signal is emitted, following all sync frames; if any enumerated
file's read fails, the fin signal is never emitted. -/
theorem c8_build_stream (md5 : List Nat → List Nat)
    (ignore : List (List Nat)) (files : List (List Nat × Option (List Nat)))
    (hreads : ∀ pd ∈ files, pd.2 ≠ none)
    (hcap : ∀ p data, (p, some data) ∈ files → md5 data ∉ ignore →
      (encode SERVER_BUILD_FILE_SYNC data p).isSome = true) :
    ((build md5 ignore files).count ⟨SERVER_FIN, [], []⟩ = 1 ∧
      (build md5 ignore files).getLast? = some ⟨SERVER_FIN, [], []⟩) ∧
    (∀ p data, (p, some data) ∈ files → md5 data ∈ ignore →
      (⟨SERVER_BUILD_FILE_SYNC, data, p⟩ : Frame) ∉ build md5 ignore files) ∧
    (∀ p data, (files.map Prod.fst).Nodup → (p, some data) ∈ files →
      md5 data ∉ ignore →
      (build md5 ignore files).count ⟨SERVER_BUILD_FILE_SYNC, data, p⟩ = 1) ∧
    (∀ gs : List (List Nat × Option (List Nat)), (∃ pd ∈ gs, pd.2 = none) →
      (build md5 ignore gs).count ⟨SERVER_FIN, [], []⟩ = 0) := by
  have hall : files.all (buildResolves md5 ignore) = true := by
    rw [List.all_eq_true]
    intro pd hpd
    cases hd : pd.2 with
    | none => exact absurd hd (hreads pd hpd)
    | some data =>
      simp only [buildResolves, hd]
      by_cases hig : md5 data ∈ ignore
      · simp [hig]
      · have he2 : (pd.1, some data) = pd := by
          rw [← hd]
        have := hcap pd.1 data (he2 ▸ hpd) hig
        simp [hig, this]
  have hbuild : build md5 ignore files =
      files.filterMap (buildFileFrame md5 ignore) ++
        [⟨SERVER_FIN, [], []⟩] := by
    simp only [build]
    rw [if_pos hall]
  have hfinne : ∀ d2 p2 : List Nat,
      (⟨SERVER_BUILD_FILE_SYNC, d2, p2⟩ : Frame) ≠ ⟨SERVER_FIN, [], []⟩ := by
    intro d2 p2 he
    rw [Frame.mk.injEq] at he
    simp [SERVER_BUILD_FILE_SYNC, SERVER_FIN] at he
  refine ⟨⟨?_, ?_⟩, ?_, ?_, ?_⟩
  · rw [hbuild, List.count_append,
      List.count_eq_zero.mpr (buildFileFrame_fin_notin md5 ignore files)]
    rfl
  · rw [hbuild]
    simp
  · intro p data hmem hig hcon
    rw [hbuild, List.mem_append] at hcon
    rcases hcon with hcon | hcon
    · rw [List.mem_filterMap] at hcon
      obtain ⟨pd, hpdmem, hpd⟩ := hcon
      cases hd : pd.2 with
      | none => simp [buildFileFrame, hd] at hpd
      | some data2 =>
        simp only [buildFileFrame, hd] at hpd
        by_cases hig2 : md5 data2 ∈ ignore
        · rw [if_pos hig2] at hpd
          simp at hpd
        · rw [if_neg hig2] at hpd
          cases he : encode SERVER_BUILD_FILE_SYNC data2 pd.1 with
          | none =>
            rw [he] at hpd
            simp at hpd
          | some b =>
            rw [he] at hpd
            simp only [Option.some.injEq, Frame.mk.injEq] at hpd
            exact hig2 (hpd.2.1 ▸ hig)
    · rw [List.mem_singleton] at hcon
      exact hfinne data p hcon
  · intro p data hnodup hmem hnig
    rw [hbuild, List.count_append,
      List.count_cons_of_ne (hfinne data p), List.count_nil,
      build_count_one md5 ignore p data hnig (hcap p data hmem hnig)
        files hnodup hmem]
  · rintro gs ⟨pd0, hpd0mem, hpd0⟩
    have hnall : ¬ (gs.all (buildResolves md5 ignore) = true) := by
      rw [List.all_eq_true]
      intro hforall
      have hres := hforall pd0 hpd0mem
      simp [buildResolves, hpd0] at hres
    simp only [build]
    rw [if_neg hnall]
    exact List.count_eq_zero.mpr (buildFileFrame_fin_notin md5 ignore gs)

/-- C8 witness: with ignore set `{[1]}` and readable in-cap files
`a ↦ [1]`, `b ↦ [2]` under the identity hash, only `b` is streamed and
exactly one fin frame ends the stream; with a failing read, no fin frame
is emitted. -/
theorem c8_build_stream_witness :
    (build (fun l => l) [[1]]
        [([0x61], some [1]), ([0x62], some [2])]).count
        ⟨SERVER_FIN, [], []⟩ = 1 ∧
    (⟨SERVER_BUILD_FILE_SYNC, [1], [0x61]⟩ : Frame) ∉
      build (fun l => l) [[1]] [([0x61], some [1]), ([0x62], some [2])] ∧
    (build (fun l => l) [[1]]
        [([0x61], some [1]), ([0x62], some [2])]).count
        ⟨SERVER_BUILD_FILE_SYNC, [2], [0x62]⟩ = 1 ∧
    (build (fun l => l) [[1]] [([0x63], none)]).count
        ⟨SERVER_FIN, [], []⟩ = 0 := by
  have hcap : ∀ p data, (p, some data) ∈
      ([([0x61], some [1]), ([0x62], some [2])] :
        List (List Nat × Option (List Nat))) →
      (fun l => l) data ∉ ([[1]] : List (List Nat)) →
      (encode SERVER_BUILD_FILE_SYNC data p).isSome = true := by
    intro p data hmem hnig
    simp only [List.mem_cons, List.not_mem_nil, or_false, Prod.mk.injEq,
      Option.some.injEq] at hmem
    rcases hmem with ⟨rfl, rfl⟩ | ⟨rfl, rfl⟩
    · exact absurd (show ([1] : List Nat) ∈ [[1]] by decide) hnig
    · decide
  have h := c8_build_stream (fun l => l) [[1]]
    [([0x61], some [1]), ([0x62], some [2])] (by decide) hcap
  exact ⟨h.1.1, h.2.1 [0x61] [1] (by decide) (by decide),
    h.2.2.1 [0x62] [2] (by decide) (by decide) (by decide),
    h.2.2.2 [([0x63], none)] ⟨([0x63], none), by decide, rfl⟩⟩

/-! ## Claim C9 — premature decrement throws -/

/-- C9: before any `Number-Of-Check-Files` message has installed the
countdown (`socket.checked` still `undefined`), a `File-Check` whose hash
matches the on-disk file throws when it calls `socket.checked()`, and a
non-manifest `File-Sync` likewise throws at its synchronous decrement;
once the countdown is installed (`checked = some t`), the same matching
`File-Check` decrements it safely. -/
theorem c9_premature_decrement (md5 : List Nat → List Nat) (s : Session)
    (f info : List Nat) :
    (s.checked = none → info = md5 f →
      fileCheckCb md5 s (some f) info = .error ()) ∧
    (∀ t : Int, s.checked = some t → info = md5 f →
      fileCheckCb md5 s (some f) info =
        .ok ({s with checked := some (t - 1)}, [])) ∧
    (∀ (k : Nat) (nt : List Nat), s.sync = some k → s.checked = none →
      ¬ nt = packageJsonBytes → fileSync s nt = .error ()) := by
  refine ⟨?_, ?_, ?_⟩
  · intro h1 h2
    simp only [fileCheckCb]
    rw [if_pos h2, h1]
  · intro t h1 h2
    simp only [fileCheckCb]
    rw [if_pos h2, h1]
  · intro k nt hs hc hnt
    simp only [fileSync, hs, if_neg hnt, hc]

/-- C9 witness: a freshly initialized session (`checked = undefined`)
throws on a matching check, and a session with an installed countdown
decrements it. -/
theorem c9_premature_decrement_witness :
    fileCheckCb (fun l => l) uninitSession (some [7]) [7] = .error () ∧
    fileCheckCb (fun l => l) (fileCheckCallBack uninitSession 3) (some [7])
        [7] =
      .ok ({fileCheckCallBack uninitSession 3 with checked := some 2}, []) ∧
    fileSync {uninitSession with sync := some 0} [0x61] = .error () := by
  refine ⟨(c9_premature_decrement (fun l => l) uninitSession [7] [7]).1
    rfl rfl, ?_, ?_⟩
  · have h := (c9_premature_decrement (fun l => l)
      (fileCheckCallBack uninitSession 3) [7] [7]).2.1 3 rfl rfl
    simpa using h
  · exact (c9_premature_decrement (fun l => l)
      {uninitSession with sync := some 0} [7] [7]).2.2 0 [0x61] rfl rfl
      (by decide)

/-! ## Claim C10 — `dirCheck`'s dot heuristic -/

theorem splitChar_ne_nil (s : List Char) : splitChar s ≠ [] := by
  cases s with
  | nil => simp [splitChar]
  | cons c rest =>
    simp only [splitChar]
    by_cases hsep : isSep c = true
    · rw [if_pos hsep]
      simp
    · rw [if_neg hsep]
      cases h : splitChar rest with
      | nil => simp
      | cons s2 ss => simp

theorem splitPath_ne_nil (s : List Char) : splitPath s ≠ [] := by
  unfold splitPath
  cases h : splitChar s with
  | nil => exact absurd h (splitChar_ne_nil s)
  | cons x xs =>
    cases xs with
    | nil => simp [collapse]
    | cons y ys => simp [collapse]

/-- C10: `dirCheck` decides whether the last path segment is a file name by
looking for a `'.'` character.  When the final segment contains a dot, only
the parent directories are created (no directory occupies the file path, so
the subsequent write can proceed); when it contains no dot, a directory is
created at the full file path itself, so the subsequent `fs.writeFile`
there fails with `EISDIR`. -/
theorem c10_dirCheck_dot (p : List Char) :
    (((splitPath p).getLastD []).contains '.' = true →
      dirCheck p = (splitPath p).dropLast ∧ writeFileFails p = false) ∧
    (((splitPath p).getLastD []).contains '.' = false → normSegs p ≠ [] →
      dirCheck p = splitPath p ∧ writeFileFails p = true) := by
  have hiff : writeFileFails p = true ↔ normSegs p ∈ createdDirs p := by
    simp [writeFileFails, List.contains]
  constructor
  · intro hdot
    have hdc : dirCheck p = (splitPath p).dropLast := by
      simp only [dirCheck]
      rw [if_pos hdot]
    refine ⟨hdc, ?_⟩
    obtain ⟨ini, last, hsp⟩ : ∃ ini last, splitPath p = ini ++ [last] := by
      rcases List.eq_nil_or_concat (splitPath p) with h | ⟨L, b, h⟩
      · exact absurd h (splitPath_ne_nil p)
      · exact ⟨L, b, by simpa [List.concat_eq_append] using h⟩
    have hlastD : (splitPath p).getLastD [] = last := by
      rw [hsp]
      simp
    rw [hlastD] at hdot
    have hmem : '.' ∈ last := by
      simpa [List.contains] using hdot
    have hW : last.isEmpty = false := by
      cases last with
      | nil => simp at hmem
      | cons a l => rfl
    have htarget : (dirCheck p).filter (fun seg => !seg.isEmpty) =
        ini.filter (fun seg => !seg.isEmpty) := by
      rw [hdc, hsp, List.dropLast_concat]
    have hnorm : normSegs p =
        ini.filter (fun seg => !seg.isEmpty) ++ [last] := by
      simp only [normSegs]
      rw [hsp, List.filter_append]
      simp [hW]
    have hnot : normSegs p ∉ createdDirs p := by
      intro hmemc
      simp only [createdDirs, List.mem_map] at hmemc
      obtain ⟨k, hk, htake⟩ := hmemc
      have hle : (normSegs p).length ≤
          ((dirCheck p).filter (fun seg => !seg.isEmpty)).length := by
        rw [← htake, List.length_take]
        exact Nat.min_le_right _ _
      rw [htarget] at hle
      have hlen2 : (normSegs p).length =
          (ini.filter (fun seg => !seg.isEmpty)).length + 1 := by
        rw [hnorm]
        simp
      omega
    rw [Bool.eq_false_iff]
    intro h
    exact hnot (hiff.mp h)
  · intro hnodot hne
    have hdc : dirCheck p = splitPath p := by
      simp only [dirCheck]
      rw [if_neg (by rw [hnodot]; simp)]
    refine ⟨hdc, ?_⟩
    rw [hiff]
    simp only [createdDirs, hdc]
    rw [List.mem_map]
    have hlp : 0 < (normSegs p).length := List.length_pos.mpr hne
    refine ⟨(normSegs p).length - 1, ?_, ?_⟩
    · rw [List.mem_range]
      show (normSegs p).length - 1 < ((splitPath p).filter _).length
      have : (splitPath p).filter (fun seg => !seg.isEmpty) = normSegs p := rfl
      rw [this]
      omega
    · have hround : (normSegs p).length - 1 + 1 = (normSegs p).length := by
        omega
      show ((splitPath p).filter _).take ((normSegs p).length - 1 + 1) =
        normSegs p
      have : (splitPath p).filter (fun seg => !seg.isEmpty) = normSegs p := rfl
      rw [this, hround, List.take_length]

/-- C10 witness: `a/b.txt` (dotted file name) leaves the file path free,
while `dist/app` (no dot) gets a directory created at the file path itself
and the write fails. -/
theorem c10_dirCheck_dot_witness :
    dirCheck "a/b.txt".toList = (splitPath "a/b.txt".toList).dropLast ∧
    writeFileFails "a/b.txt".toList = false ∧
    dirCheck "dist/app".toList = splitPath "dist/app".toList ∧
    writeFileFails "dist/app".toList = true := by
  have h1 := (c10_dirCheck_dot "a/b.txt".toList).1 (by decide)
  have h2 := (c10_dirCheck_dot "dist/app".toList).2 (by decide) (by decide)
  exact ⟨h1.1, h1.2, h2.1, h2.2⟩

end SL
